import Mathlib

/-!
Verification development for the nucleation-curve alignment program
(`src/NucleationApp.py`).

The core of the program is:
* line 83: `idx = (np.abs(time_min - x_click)).argmin()` — nearest-index resolution;
* lines 84-89: window slicing `column_data[start:end]` with right padding by `np.nan`
  up to `n_before + n_after`;
* lines 93-96: `np.nanmean` / `np.nanstd` per position across the aligned segments,
  with `sem_curve = std_curve`;
* line 76: `t_value = stats.t.ppf(0.975, df=n-1) if n < 30 else 1.96`;
* line 99: `ci(mean, sem) = (mean - t_value*sem, mean + t_value*sem)`.

Numeric samples are embedded as rationals (`ℚ`); the missing-value marker `np.nan`
is embedded as `none : Option ℚ`, and NaN-propagating float arithmetic as
arithmetic on `Option`.  The standard deviation, which is irrational in general,
lives in `ℝ` via `Real.sqrt` on the rational variance.  `scipy.stats.t.ppf` is
external to the repository and is kept as an explicit function parameter `tppf`.
-/

namespace NucleationApp

/-- `np.argmin` on a list of rationals: the index of the first occurrence of the
minimum value (numpy returns the first occurrence on ties).  numpy raises on an
empty array; the empty case is handled separately by `argminAbs?`. -/
def argminIdx : List ℚ → ℕ
  | [] => 0
  | [_] => 0
  | a :: b :: rest =>
      let j := argminIdx (b :: rest)
      if (b :: rest).getD j 0 < a then j + 1 else 0

/-- Line 83: the array `np.abs(time_min - x_click)` of absolute differences. -/
def absDiffs (timeMin : List ℚ) (x : ℚ) : List ℚ :=
  timeMin.map (fun t => |t - x|)

/-- Line 83: `idx = (np.abs(time_min - x_click)).argmin()`. -/
def argminAbs (timeMin : List ℚ) (x : ℚ) : ℕ :=
  argminIdx (absDiffs timeMin x)

/-- Lines 84-86: `start = max(0, idx - n_before)`, `end = min(len(column_data),
idx + n_after)`, `segment = column_data[start:end]`.  Natural-number subtraction
realises the `max(0, ·)` clamp of the Python code. -/
def rawSegment (columnData : List ℚ) (idx nBefore nAfter : ℕ) : List ℚ :=
  let start := idx - nBefore
  let stop := min columnData.length (idx + nAfter)
  (columnData.drop start).take (stop - start)

/-- Lines 84-89: the raw slice, right-padded with the missing-value marker up to
`n_before + n_after` (`np.pad(segment, (0, total_len - len(segment)),
constant_values=np.nan)`), exactly as the code does when the slice is short. -/
def extractWindow (columnData : List ℚ) (idx nBefore nAfter : ℕ) : List (Option ℚ) :=
  let seg := rawSegment columnData idx nBefore nAfter
  seg.map some ++ List.replicate (nBefore + nAfter - seg.length) none

/-- The non-missing values at position `p` across the aligned segments: the
column of the stacked array `aligned_segments` (line 93) that `np.nanmean` /
`np.nanstd` average over at position `p`, with `np.nan` entries dropped. -/
def colVals (segs : List (List (Option ℚ))) (p : ℕ) : List ℚ :=
  segs.filterMap (fun w => w.getD p none)

/-- Line 94: `np.nanmean(aligned_segments, axis=0)` at position `p` — the
arithmetic mean of the non-missing values there, `NaN` (here `none`) when all
values are missing. -/
def nanmeanAt (segs : List (List (Option ℚ))) (p : ℕ) : Option ℚ :=
  if colVals segs p = [] then none
  else some ((colVals segs p).sum / (colVals segs p).length)

/-- Line 95 before the square root: the population variance (`ddof = 0`, numpy's
default for `np.nanstd`) of the non-missing values at position `p`. -/
def nanvarAt (segs : List (List (Option ℚ))) (p : ℕ) : Option ℚ :=
  if colVals segs p = [] then none
  else some (((colVals segs p).map
      (fun v => (v - (colVals segs p).sum / (colVals segs p).length) ^ 2)).sum /
      (colVals segs p).length)

/-- Line 95: `np.nanstd(aligned_segments, axis=0)` at position `p`: the square
root of the population variance of the non-missing values. -/
noncomputable def nanstdAt (segs : List (List (Option ℚ))) (p : ℕ) : Option ℝ :=
  (nanvarAt segs p).map (fun v => Real.sqrt (v : ℝ))

/-- Line 96: `sem_curve = std_curve` — the code takes the standard deviation
itself as the standard error. -/
noncomputable def semAt (segs : List (List (Option ℚ))) (p : ℕ) : Option ℝ :=
  nanstdAt segs p

/-- The common length of the stacked segments (the second dimension of
`np.array(aligned_segments)` on line 93). -/
def curveLen (segs : List (List (Option ℚ))) : ℕ :=
  (segs.headD []).length

/-- Line 94 as a curve: `mean_curve = np.nanmean(aligned_segments, axis=0)`. -/
def meanCurve (segs : List (List (Option ℚ))) : List (Option ℚ) :=
  (List.range (curveLen segs)).map (nanmeanAt segs)

/-- The per-position population variance as a curve (the square of line 95). -/
def varCurve (segs : List (List (Option ℚ))) : List (Option ℚ) :=
  (List.range (curveLen segs)).map (nanvarAt segs)

/-- Line 95 as a curve: `std_curve = np.nanstd(aligned_segments, axis=0)`. -/
noncomputable def stdCurve (segs : List (List (Option ℚ))) : List (Option ℝ) :=
  (List.range (curveLen segs)).map (nanstdAt segs)

/-- Line 96 as a curve: `sem_curve = std_curve`. -/
noncomputable def semCurve (segs : List (List (Option ℚ))) : List (Option ℝ) :=
  stdCurve segs

/-- The mean curve viewed in `ℝ` (the embedding keeps exact rational means; the
cast is the identity on values and exists only to type the `ci` application the
way the float code mixes mean and SEM in one expression). -/
noncomputable def meanCurveR (segs : List (List (Option ℚ))) : List (Option ℝ) :=
  (meanCurve segs).map (Option.map (fun q : ℚ => (q : ℝ)))

/-- Lines 82-91: the loop over `selected_points` building `aligned_segments`,
on the happy path where `time_min` is non-empty so that `argmin` succeeds. -/
def alignedSegments (columnData timeMin points : List ℚ) (nBefore nAfter : ℕ) :
    List (List (Option ℚ)) :=
  points.map (fun x => extractWindow columnData (argminAbs timeMin x) nBefore nAfter)

/-- Line 83 with numpy's error behaviour made explicit: `argmin` of an empty
array raises `ValueError`; this is the only failure mode of the loop. -/
def argminAbsE (timeMin : List ℚ) (x : ℚ) : Option ℕ :=
  if timeMin = [] then none else some (argminAbs timeMin x)

/-- Sequencing of a loop whose body may raise: `none` as soon as one iteration
fails, the list of results otherwise. -/
def mapOpt {α β : Type} (f : α → Option β) : List α → Option (List β)
  | [] => some []
  | a :: as =>
      match f a, mapOpt f as with
      | some b, some bs => some (b :: bs)
      | _, _ => none

/-- Lines 79-91: the segment-building loop with its one error path (numpy
`argmin` on an empty time axis). -/
def alignedSegmentsE (columnData timeMin points : List ℚ) (nBefore nAfter : ℕ) :
    Option (List (List (Option ℚ))) :=
  mapOpt (fun x => (argminAbsE timeMin x).map
    (fun idx => extractWindow columnData idx nBefore nAfter)) points

/-- Lines 78-97: `get_aligned_stats(column_data)`, returning `(mean_curve,
sem_curve, aligned_segments)`; `none` models the run aborting with numpy's
`ValueError` (the only exception the function can raise). -/
noncomputable def get_aligned_stats (columnData timeMin points : List ℚ)
    (nBefore nAfter : ℕ) :
    Option (List (Option ℚ) × List (Option ℝ) × List (List (Option ℚ))) :=
  (alignedSegmentsE columnData timeMin points nBefore nAfter).map
    (fun segs => (meanCurve segs, semCurve segs, segs))

/-- Line 76: `t_value = stats.t.ppf(0.975, df=n-1) if n < 30 else 1.96`.
`scipy.stats.t.ppf` is external to the repository and is passed in as `tppf`
(quantile, then degrees of freedom); `0.975 = 39/40` and `1.96 = 49/25` are
exact in `ℚ`.  The `Option` result lets `tppf` report scipy's NaN outputs. -/
def t_value (tppf : ℚ → ℤ → Option ℚ) (n : ℕ) : Option ℚ :=
  if n < 30 then tppf (39 / 40) ((n : ℤ) - 1) else some (49 / 25)

/-- Modelled from the spec: `criticalValue(n, confidenceLevel)` of §4.4 — the
Student-t inverse CDF at `1 - alpha/2` with `n - 1` degrees of freedom when
`n < 30`, the standard normal inverse CDF at `1 - alpha/2` otherwise, where
`alpha = 1 - confidenceLevel`.  The two inverse CDFs (absent from `src/`) are
the parameters `tppf` and `normppf`. -/
def criticalValue_spec (tppf : ℚ → ℤ → Option ℚ) (normppf : ℚ → Option ℚ)
    (n : ℕ) (c : ℚ) : Option ℚ :=
  if n < 30 then tppf (1 - (1 - c) / 2) ((n : ℤ) - 1)
  else normppf (1 - (1 - c) / 2)

/-- NaN-propagating product: any operand that is NaN makes the result NaN. -/
def nanMul {α : Type} [Mul α] : Option α → Option α → Option α
  | some a, some b => some (a * b)
  | _, _ => none

/-- NaN-propagating sum. -/
def nanAdd {α : Type} [Add α] : Option α → Option α → Option α
  | some a, some b => some (a + b)
  | _, _ => none

/-- NaN-propagating difference. -/
def nanSub {α : Type} [Sub α] : Option α → Option α → Option α
  | some a, some b => some (a - b)
  | _, _ => none

/-- Line 99: `ci(mean, sem) = (mean - t_value*sem, mean + t_value*sem)`,
elementwise over the two curves, with the critical value `t` as the spec's §4.4
contract passes it. -/
def ci {α : Type} [Add α] [Sub α] [Mul α] (t : Option α)
    (mean sem : List (Option α)) : List (Option α) × List (Option α) :=
  (List.zipWith (fun m s => nanSub m (nanMul t s)) mean sem,
   List.zipWith (fun m s => nanAdd m (nanMul t s)) mean sem)

/-- IEEE-754 `<=` on possibly-NaN values: any comparison involving NaN is false. -/
def optLe : Option ℚ → Option ℚ → Bool
  | some x, some y => decide (x ≤ y)
  | _, _ => false

/-- Line 55: `max_possible_points = 10`, the upper bound of the
`num_points` slider (line 56, `min_value=1, max_value=max_possible_points`). -/
def max_possible_points : ℕ := 10

theorem argminIdx_lt_length (l : List ℚ) (hne : l ≠ []) : argminIdx l < l.length := by
  induction l with
  | nil => exact absurd rfl hne
  | cons a tl ih =>
    cases tl with
    | nil => simp [argminIdx]
    | cons b rest =>
      have h := ih (by simp)
      simp only [argminIdx]
      split
      · simpa using Nat.succ_lt_succ h
      · simp

theorem argminIdx_min (l : List ℚ) (k : ℕ) (hk : k < l.length) :
    l.getD (argminIdx l) 0 ≤ l.getD k 0 := by
  induction l generalizing k with
  | nil => simp at hk
  | cons a tl ih =>
    cases tl with
    | nil =>
      cases k with
      | zero => simp [argminIdx]
      | succ k' => simp at hk
    | cons b rest =>
      simp only [argminIdx]
      split
      · next hlt =>
        rw [List.getD_cons_succ]
        cases k with
        | zero => exact le_of_lt (by simpa using hlt)
        | succ k' =>
          rw [List.getD_cons_succ]
          exact ih k' (by simpa using hk)
      · next hge =>
        push_neg at hge
        rw [List.getD_cons_zero]
        cases k with
        | zero => simp
        | succ k' =>
          rw [List.getD_cons_succ]
          exact le_trans hge (ih k' (by simpa using hk))

theorem argminIdx_first (l : List ℚ) (k : ℕ) (hk : k < argminIdx l) :
    l.getD (argminIdx l) 0 < l.getD k 0 := by
  induction l generalizing k with
  | nil => simp [argminIdx] at hk
  | cons a tl ih =>
    cases tl with
    | nil => simp [argminIdx] at hk
    | cons b rest =>
      simp only [argminIdx] at hk ⊢
      split
      · next hlt =>
        rw [List.getD_cons_succ]
        cases k with
        | zero => simpa using hlt
        | succ k' =>
          rw [List.getD_cons_succ]
          have hk' : k' < argminIdx (b :: rest) := by
            have := hk
            simp only [if_pos hlt] at this
            omega
          exact ih k' hk'
      · next hge =>
        next =>
          simp only [if_neg hge] at hk
          omega

theorem absDiffs_getD (timeMin : List ℚ) (x : ℚ) (j : ℕ) (hj : j < timeMin.length) :
    (absDiffs timeMin x).getD j 0 = |timeMin.getD j 0 - x| := by
  have hj' : j < (absDiffs timeMin x).length := by
    simpa [absDiffs] using hj
  rw [List.getD_eq_getElem _ _ hj', List.getD_eq_getElem _ _ hj]
  simp [absDiffs]

theorem rawSegment_length_le (columnData : List ℚ) (idx nBefore nAfter : ℕ) :
    (rawSegment columnData idx nBefore nAfter).length ≤ nBefore + nAfter := by
  simp only [rawSegment, List.length_take, List.length_drop]
  omega

theorem extractWindow_length (columnData : List ℚ) (idx nBefore nAfter : ℕ) :
    (extractWindow columnData idx nBefore nAfter).length = nBefore + nAfter := by
  have h := rawSegment_length_le columnData idx nBefore nAfter
  simp only [extractWindow, List.length_append, List.length_map, List.length_replicate]
  omega

/-- C5: for every non-empty monotonic time axis and reference time, line 83's
`(np.abs(time_min - x_click)).argmin()` returns an in-range index whose time has
minimum absolute difference to the reference time, ties broken by the lowest
index (the strict inequality against every earlier index). -/
theorem C5_time_index_resolver (timeMin : List ℚ) (x : ℚ)
    (hne : timeMin ≠ []) (hmono : timeMin.Sorted (· ≤ ·)) :
    argminAbs timeMin x < timeMin.length ∧
    (∀ j, j < timeMin.length →
      |timeMin.getD (argminAbs timeMin x) 0 - x| ≤ |timeMin.getD j 0 - x|) ∧
    (∀ j, j < argminAbs timeMin x →
      |timeMin.getD (argminAbs timeMin x) 0 - x| < |timeMin.getD j 0 - x|) := by
  have hlen : (absDiffs timeMin x).length = timeMin.length := by simp [absDiffs]
  have hne' : absDiffs timeMin x ≠ [] := by
    cases timeMin with
    | nil => exact absurd rfl hne
    | cons a l => simp [absDiffs]
  have h1 : argminAbs timeMin x < timeMin.length := by
    rw [← hlen]; exact argminIdx_lt_length _ hne'
  refine ⟨h1, ?_, ?_⟩
  · intro j hj
    have h : (absDiffs timeMin x).getD (argminAbs timeMin x) 0
        ≤ (absDiffs timeMin x).getD j 0 :=
      argminIdx_min (absDiffs timeMin x) j (by rw [hlen]; exact hj)
    rwa [absDiffs_getD timeMin x _ h1, absDiffs_getD timeMin x j hj] at h
  · intro j hj
    have hjlt : j < timeMin.length := lt_trans hj h1
    have h : (absDiffs timeMin x).getD (argminAbs timeMin x) 0
        < (absDiffs timeMin x).getD j 0 :=
      argminIdx_first (absDiffs timeMin x) j hj
    rwa [absDiffs_getD timeMin x _ h1, absDiffs_getD timeMin x j hjlt] at h

/-- Witness for C5 on the axis `[0, 2]` with reference time `1`: both entries are
at distance `1`, and the resolver answers the lower index `0`. -/
theorem C5_time_index_resolver_witness :
    ([0, 2] : List ℚ) ≠ [] ∧
    ([0, 2] : List ℚ).Sorted (· ≤ ·) ∧
    argminAbs [0, 2] (1 : ℚ) = 0 ∧
    |([0, 2] : List ℚ).getD (argminAbs [0, 2] (1 : ℚ)) 0 - 1|
      ≤ |([0, 2] : List ℚ).getD 1 0 - 1| :=
  ⟨by simp, by norm_num [List.sorted_cons],
   by norm_num [argminAbs, absDiffs, argminIdx],
   (C5_time_index_resolver [0, 2] 1 (by simp)
     (by norm_num [List.sorted_cons])).2.1 1 (by norm_num)⟩

/-- C6: whenever the resolved index `i` satisfies `i ≥ before` and
`i + after ≤ len(series)`, the extracted window is exactly
`series[i-before : i+after]` with no padding. -/
theorem C6_exact_window_no_padding (columnData timeMin : List ℚ) (x : ℚ)
    (nBefore nAfter : ℕ)
    (h1 : nBefore ≤ argminAbs timeMin x)
    (h2 : argminAbs timeMin x + nAfter ≤ columnData.length) :
    extractWindow columnData (argminAbs timeMin x) nBefore nAfter
      = ((columnData.drop (argminAbs timeMin x - nBefore)).take
          (nBefore + nAfter)).map some := by
  set i := argminAbs timeMin x with hi
  have hstop : min columnData.length (i + nAfter) = i + nAfter := by omega
  have harith : i + nAfter - (i - nBefore) = nBefore + nAfter := by omega
  have hseg : rawSegment columnData i nBefore nAfter
      = (columnData.drop (i - nBefore)).take (nBefore + nAfter) := by
    simp only [rawSegment, hstop, harith]
  have hlen : ((columnData.drop (i - nBefore)).take (nBefore + nAfter)).length
      = nBefore + nAfter := by
    simp only [List.length_take, List.length_drop]
    omega
  simp only [extractWindow, hseg, hlen, Nat.sub_self, List.replicate_zero,
    List.append_nil]

/-- Witness for C6, the spec's own worked example: series `[0,...,9]`, time axis
`[0,...,9]`, reference point `5`, `before = after = 2`; the resolved index is `5`
and the window is `[3, 4, 5, 6]`. -/
theorem C6_exact_window_no_padding_witness :
    argminAbs [0, 1, 2, 3, 4, 5, 6, 7, 8, 9] (5 : ℚ) = 5 ∧
    extractWindow [0, 1, 2, 3, 4, 5, 6, 7, 8, 9]
        (argminAbs [0, 1, 2, 3, 4, 5, 6, 7, 8, 9] (5 : ℚ)) 2 2
      = [some 3, some 4, some 5, some 6] := by
  have hidx : argminAbs [0, 1, 2, 3, 4, 5, 6, 7, 8, 9] (5 : ℚ) = 5 := by
    norm_num [argminAbs, absDiffs, argminIdx]
  refine ⟨hidx, (C6_exact_window_no_padding [0, 1, 2, 3, 4, 5, 6, 7, 8, 9]
    [0, 1, 2, 3, 4, 5, 6, 7, 8, 9] 5 2 2 (by rw [hidx]; norm_num)
    (by rw [hidx]; norm_num)).trans ?_⟩
  rw [hidx]
  norm_num

/-- C3 counterexample: with the point resolving to index `0`, `before = 5`,
`after = 2 ≤ len(series)` for the series `[1, 2, 3]`, the code's window is NOT
five missing markers followed by `series[0:2]` — the code pads on the right
(lines 88-89), producing `[1, 2, NaN, NaN, NaN, NaN, NaN]`. -/
theorem C3_left_pad_counterexample :
    argminAbs [0, 10, 20] (0 : ℚ) = 0 ∧
    (2 : ℕ) ≤ ([1, 2, 3] : List ℚ).length ∧
    extractWindow [1, 2, 3] (argminAbs [0, 10, 20] (0 : ℚ)) 5 2
      ≠ List.replicate 5 none ++ (([1, 2, 3] : List ℚ).take 2).map some := by
  have hidx : argminAbs [0, 10, 20] (0 : ℚ) = 0 := by
    norm_num [argminAbs, absDiffs, argminIdx]
  refine ⟨hidx, by norm_num, ?_⟩
  rw [hidx]
  norm_num [extractWindow, rawSegment, List.replicate]
  intro h
  exact absurd h (by simp)

/-- C3 amended: if a reference point resolves to index `0` with `before = 5` and
`after ≤ len(series)`, the window's FIRST `after` positions equal `series[0:after]`
and its LAST 5 positions are missing-value markers (the deficit is padded on the
right, per §4.2, not on the left). -/
theorem C3_right_pad_amended (columnData timeMin : List ℚ) (x : ℚ) (nAfter : ℕ)
    (h0 : argminAbs timeMin x = 0) (hlen : nAfter ≤ columnData.length) :
    extractWindow columnData (argminAbs timeMin x) 5 nAfter
      = (columnData.take nAfter).map some ++ List.replicate 5 none := by
  rw [h0]
  have hseg : rawSegment columnData 0 5 nAfter = columnData.take nAfter := by
    simp only [rawSegment, Nat.zero_sub, Nat.zero_add, Nat.sub_zero, List.drop_zero,
      min_eq_right hlen]
  have hlen' : (columnData.take nAfter).length = nAfter := by
    simp only [List.length_take]
    omega
  simp only [extractWindow, hseg, hlen',
    show 5 + nAfter - nAfter = 5 from by omega]

/-- Witness for the amended C3: series `[1, 2, 3]`, `after = 2`, reference point
resolving to index `0`: the window is `[1, 2]` followed by five markers. -/
theorem C3_right_pad_amended_witness :
    argminAbs [0, 10, 20] (0 : ℚ) = 0 ∧
    (2 : ℕ) ≤ ([1, 2, 3] : List ℚ).length ∧
    extractWindow [1, 2, 3] (argminAbs [0, 10, 20] (0 : ℚ)) 5 2
      = (([1, 2, 3] : List ℚ).take 2).map some ++ List.replicate 5 none :=
  ⟨by norm_num [argminAbs, absDiffs, argminIdx], by norm_num,
   C3_right_pad_amended [1, 2, 3] [0, 10, 20] 0 2
     (by norm_num [argminAbs, absDiffs, argminIdx]) (by norm_num)⟩

/-- C2: every extracted window has length exactly `before + after`; the raw
slice never exceeds `before + after` (so the right-pad amount is never
negative); and the mean, SEM, and CI curves all have that same length. -/
theorem C2_window_and_curve_lengths (columnData timeMin points : List ℚ)
    (nBefore nAfter : ℕ) (hpts : points ≠ []) :
    (∀ w ∈ alignedSegments columnData timeMin points nBefore nAfter,
        w.length = nBefore + nAfter) ∧
    (∀ x ∈ points,
        (rawSegment columnData (argminAbs timeMin x) nBefore nAfter).length
          ≤ nBefore + nAfter) ∧
    (meanCurve (alignedSegments columnData timeMin points nBefore nAfter)).length
        = nBefore + nAfter ∧
    (semCurve (alignedSegments columnData timeMin points nBefore nAfter)).length
        = nBefore + nAfter ∧
    (∀ t : Option ℝ,
      (ci t (meanCurveR (alignedSegments columnData timeMin points nBefore nAfter))
          (semCurve (alignedSegments columnData timeMin points nBefore nAfter))).1.length
        = nBefore + nAfter ∧
      (ci t (meanCurveR (alignedSegments columnData timeMin points nBefore nAfter))
          (semCurve (alignedSegments columnData timeMin points nBefore nAfter))).2.length
        = nBefore + nAfter) := by
  have hcl : curveLen (alignedSegments columnData timeMin points nBefore nAfter)
      = nBefore + nAfter := by
    cases points with
    | nil => exact absurd rfl hpts
    | cons x xs => simp [alignedSegments, curveLen, extractWindow_length]
  refine ⟨?_, ?_, ?_, ?_, ?_⟩
  · intro w hw
    simp only [alignedSegments, List.mem_map] at hw
    obtain ⟨y, _, rfl⟩ := hw
    exact extractWindow_length columnData (argminAbs timeMin y) nBefore nAfter
  · intro y _
    exact rawSegment_length_le columnData (argminAbs timeMin y) nBefore nAfter
  · simp [meanCurve, hcl]
  · simp [semCurve, stdCurve, hcl]
  · intro t
    constructor <;>
      simp [ci, List.length_zipWith, meanCurveR, meanCurve, semCurve, stdCurve, hcl]

/-- Witness for C2 on a concrete run: series `[1, 2, 3]`, axis `[0, 1, 2]`, one
reference point, `before = after = 1`. -/
theorem C2_window_and_curve_lengths_witness :
    ([1] : List ℚ) ≠ [] ∧
    (meanCurve (alignedSegments [1, 2, 3] [0, 1, 2] [1] 1 1)).length = 1 + 1 ∧
    (semCurve (alignedSegments [1, 2, 3] [0, 1, 2] [1] 1 1)).length = 1 + 1 :=
  ⟨by simp,
   (C2_window_and_curve_lengths [1, 2, 3] [0, 1, 2] [1] 1 1 (by simp)).2.2.1,
   (C2_window_and_curve_lengths [1, 2, 3] [0, 1, 2] [1] 1 1 (by simp)).2.2.2.1⟩

/-- C1 counterexample: two windows `[0]` and `[2]` (so `n = 2`): the population
standard deviation at position 0 is `1` and the code's SEM is also `1`
(line 96 sets `sem_curve = std_curve`), but the claimed `std/sqrt(n)` is
`1/sqrt 2 ≠ 1`. -/
theorem C1_sem_counterexample :
    ([[some (0 : ℚ)], [some 2]] : List (List (Option ℚ))).length = 2 ∧
    nanstdAt [[some (0 : ℚ)], [some 2]] 0 = some 1 ∧
    semAt [[some (0 : ℚ)], [some 2]] 0 ≠ some (1 / Real.sqrt 2) := by
  have hv : nanvarAt [[some (0 : ℚ)], [some 2]] 0 = some 1 := by
    norm_num [nanvarAt, colVals, List.filterMap_cons]
    exact fun h => absurd h (List.cons_ne_nil _ _)
  have hs : nanstdAt [[some (0 : ℚ)], [some 2]] 0 = some 1 := by
    rw [nanstdAt, hv]
    norm_num
  refine ⟨rfl, hs, ?_⟩
  have hsem : semAt [[some (0 : ℚ)], [some 2]] 0 = some 1 := hs
  rw [hsem]
  intro h
  have h1 : (1 : ℝ) = 1 / Real.sqrt 2 := Option.some.inj h
  have h2 : (1 : ℝ) < Real.sqrt 2 :=
    (Real.lt_sqrt (by norm_num)).mpr (by norm_num)
  have h3 : (1 : ℝ) / Real.sqrt 2 < 1 := (div_lt_one (by positivity)).mpr h2
  linarith

/-- C1 amended: line 96 sets `sem_curve = std_curve`, with no `/sqrt(n)`
normalisation: the SEM equals the standard deviation itself, and the claimed
identity `semCurve[p] = stdCurve[p]/sqrt(n)` holds at a position exactly when
the standard deviation there is `0` or there is a single reference point. -/
theorem C1_sem_amended (segs : List (List (Option ℚ))) (p : ℕ) (s : ℝ)
    (hne : segs ≠ []) (hstd : nanstdAt segs p = some s) :
    semAt segs p = some s ∧
    (semAt segs p = some (s / Real.sqrt (segs.length : ℝ)) ↔
      (s = 0 ∨ segs.length = 1)) := by
  have hsem : semAt segs p = some s := hstd
  refine ⟨hsem, ?_⟩
  have hn : 1 ≤ segs.length := by
    cases segs with
    | nil => exact absurd rfl hne
    | cons a l => simp
  have hnR : (1 : ℝ) ≤ (segs.length : ℝ) := by exact_mod_cast hn
  have hsq : (0 : ℝ) < Real.sqrt (segs.length : ℝ) :=
    Real.sqrt_pos.mpr (by linarith)
  rw [hsem]
  constructor
  · intro h
    have h' : s = s / Real.sqrt (segs.length : ℝ) := Option.some.inj h
    by_cases hs0 : s = 0
    · exact Or.inl hs0
    · right
      have hmul : s * Real.sqrt (segs.length : ℝ) = s :=
        (eq_div_iff hsq.ne').mp h'
      have hmul1 : s * Real.sqrt (segs.length : ℝ) = s * 1 := by
        rw [mul_one]; exact hmul
      have hone : Real.sqrt (segs.length : ℝ) = 1 := mul_left_cancel₀ hs0 hmul1
      have : (segs.length : ℝ) = 1 := Real.sqrt_eq_one.mp hone
      exact_mod_cast this
  · rintro (hs0 | hL)
    · rw [hs0]
      simp
    · rw [hL]
      simp [Real.sqrt_one]

/-- Witness for the amended C1 at the windows `[0]` and `[2]`: the SEM equals
the standard deviation `1`, and since `1 ≠ 0` and `n = 2 ≠ 1` the claimed
normalised identity indeed fails there. -/
theorem C1_sem_amended_witness :
    ([[some (0 : ℚ)], [some 2]] : List (List (Option ℚ))) ≠ [] ∧
    semAt [[some (0 : ℚ)], [some 2]] 0 = some 1 ∧
    (semAt [[some (0 : ℚ)], [some 2]] 0
        = some (1 / Real.sqrt
            (([[some (0 : ℚ)], [some 2]] : List (List (Option ℚ))).length : ℝ)) ↔
      ((1 : ℝ) = 0 ∨
        ([[some (0 : ℚ)], [some 2]] : List (List (Option ℚ))).length = 1)) := by
  have hv : nanvarAt [[some (0 : ℚ)], [some 2]] 0 = some 1 := by
    norm_num [nanvarAt, colVals, List.filterMap_cons]
    exact fun h => absurd h (List.cons_ne_nil _ _)
  have hs : nanstdAt [[some (0 : ℚ)], [some 2]] 0 = some 1 := by
    rw [nanstdAt, hv]
    norm_num
  exact ⟨by simp, (C1_sem_amended _ 0 1 (by simp) hs).1,
    (C1_sem_amended _ 0 1 (by simp) hs).2⟩

/-- C4 counterexample: the code never reads a confidence level — substituting
the strictly monotone quantile stand-in `tppf q df = q`, at `n = 2` and
confidence level `c = 0.99` the code's critical value (quantile `0.975`,
line 76) differs from the claimed quantile `1 - alpha/2 = 0.995`. -/
theorem C4_critical_value_counterexample :
    t_value (fun q _ => some q) 2
      ≠ criticalValue_spec (fun q _ => some q) (fun q => some q) 2 (99 / 100) := by
  norm_num [t_value, criticalValue_spec]

/-- C4 amended: the confidence level is hard-coded to 0.95: for `n < 30` the
critical value is the Student-t inverse CDF at `0.975 = 1 - (1 - 0.95)/2` with
`n - 1` degrees of freedom — the claimed formula at `c = 0.95` — and for
`n ≥ 30` it is the literal constant `1.96`, not a normal inverse CDF call. -/
theorem C4_critical_value_amended (tppf : ℚ → ℤ → Option ℚ)
    (normppf : ℚ → Option ℚ) (n : ℕ) :
    (n < 30 → t_value tppf n = criticalValue_spec tppf normppf n (19 / 20)) ∧
    (30 ≤ n → t_value tppf n = some (49 / 25)) := by
  constructor
  · intro h
    rw [t_value, criticalValue_spec, if_pos h, if_pos h]
    norm_num
  · intro h
    rw [t_value, if_neg (by omega)]

/-- Witness for the amended C4 at `n = 2` (t branch) and `n = 31` (constant
branch). -/
theorem C4_critical_value_amended_witness :
    (2 : ℕ) < 30 ∧ (30 : ℕ) ≤ 31 ∧
    t_value (fun q _ => some q) 2
      = criticalValue_spec (fun q _ => some q) (fun q => some q) 2 (19 / 20) ∧
    t_value (fun q _ => some q) 31 = some (49 / 25) :=
  ⟨by norm_num, by norm_num,
   (C4_critical_value_amended (fun q _ => some q) (fun q => some q) 2).1 (by norm_num),
   (C4_critical_value_amended (fun q _ => some q) (fun q => some q) 31).2 (by norm_num)⟩

/-- C10: with the number of reference points bounded by the `num_points` slider
(line 56: `min_value=1`, `max_value=max_possible_points`), `n < 30` always
holds, so line 76's critical value always comes from the Student-t branch and
the `1.96` normal-approximation constant is unreachable. -/
theorem C10_normal_branch_unreachable (n : ℕ)
    (h1 : 1 ≤ n) (h2 : n ≤ max_possible_points) :
    n < 30 ∧ ∀ tppf : ℚ → ℤ → Option ℚ,
      t_value tppf n = tppf (39 / 40) ((n : ℤ) - 1) := by
  have h10 : n ≤ 10 := h2
  have h30 : n < 30 := by omega
  exact ⟨h30, fun tppf => by rw [t_value, if_pos h30]⟩

/-- Witness for C10 at the slider default `num_points = 3`. -/
theorem C10_normal_branch_unreachable_witness :
    (1 : ℕ) ≤ 3 ∧ (3 : ℕ) ≤ max_possible_points ∧
    3 < 30 ∧ t_value (fun q _ => some q) 3 = some (39 / 40) :=
  ⟨by norm_num, by norm_num [max_possible_points],
   (C10_normal_branch_unreachable 3 (by norm_num)
     (by norm_num [max_possible_points])).1,
   (C10_normal_branch_unreachable 3 (by norm_num)
     (by norm_num [max_possible_points])).2 (fun q _ => some q)⟩

theorem nanMul_none_left {α : Type} [Mul α] (b : Option α) :
    nanMul none b = none := by
  cases b <;> rfl

theorem nanSub_none_right {α : Type} [Sub α] (a : Option α) :
    nanSub a none = none := by
  cases a <;> rfl

theorem nanAdd_none_right {α : Type} [Add α] (a : Option α) :
    nanAdd a none = none := by
  cases a <;> rfl

theorem alignedSegmentsE_of_ne_nil (columnData timeMin points : List ℚ)
    (nBefore nAfter : ℕ) (hne : timeMin ≠ []) :
    alignedSegmentsE columnData timeMin points nBefore nAfter
      = some (alignedSegments columnData timeMin points nBefore nAfter) := by
  induction points with
  | nil => rfl
  | cons x xs ih =>
    have hfx : (argminAbsE timeMin x).map
        (fun idx => extractWindow columnData idx nBefore nAfter)
        = some (extractWindow columnData (argminAbs timeMin x) nBefore nAfter) := by
      rw [argminAbsE, if_neg hne]
      rfl
    have ih' : mapOpt (fun y => (argminAbsE timeMin y).map
        (fun idx => extractWindow columnData idx nBefore nAfter)) xs
        = some (alignedSegments columnData timeMin xs nBefore nAfter) := ih
    show mapOpt _ (x :: xs) = _
    rw [mapOpt, hfx, ih']
    rfl

/-- C7: with a single reference point (`n = 1`) the code silently propagates
NaN: scipy's `t.ppf` at `df = 0` is NaN (modelled: `tppf` returns `none` for
`df ≤ 0`), so `t_value` is NaN and both CI bound curves of line 99 are NaN at
every position, with no sentinel and no rejection anywhere. -/
theorem C7_n_eq_one_nan_bounds (tppf : ℚ → ℤ → Option ℚ)
    (hdf : ∀ q d, d ≤ 0 → tppf q d = none)
    (mean sem : List (Option ℚ)) (p : ℕ)
    (hp1 : p < mean.length) (hp2 : p < sem.length) :
    t_value tppf 1 = none ∧
    (ci (t_value tppf 1) mean sem).1.getD p (some 0) = none ∧
    (ci (t_value tppf 1) mean sem).2.getD p (some 0) = none := by
  have ht : t_value tppf 1 = none := by
    rw [t_value, if_pos (by norm_num)]
    exact hdf _ _ (by norm_num)
  refine ⟨ht, ?_, ?_⟩
  · rw [ht]
    have hl : p < (List.zipWith
        (fun m s => nanSub m (nanMul (none : Option ℚ) s)) mean sem).length := by
      rw [List.length_zipWith]; omega
    show (List.zipWith (fun m s => nanSub m (nanMul (none : Option ℚ) s))
        mean sem).getD p (some 0) = none
    rw [List.getD_eq_getElem _ _ hl, List.getElem_zipWith,
      nanMul_none_left, nanSub_none_right]
  · rw [ht]
    have hl : p < (List.zipWith
        (fun m s => nanAdd m (nanMul (none : Option ℚ) s)) mean sem).length := by
      rw [List.length_zipWith]; omega
    show (List.zipWith (fun m s => nanAdd m (nanMul (none : Option ℚ) s))
        mean sem).getD p (some 0) = none
    rw [List.getD_eq_getElem _ _ hl, List.getElem_zipWith,
      nanMul_none_left, nanAdd_none_right]

/-- Witness for C7: one reference point, mean `[1]`, SEM `[0]`: both CI bounds
are NaN at position 0. -/
theorem C7_n_eq_one_nan_bounds_witness :
    t_value (fun _ _ => none) 1 = none ∧
    (ci (t_value (fun _ _ => none) 1) [some 1] [some 0]).1.getD 0 (some 0) = none ∧
    (ci (t_value (fun _ _ => none) 1) [some 1] [some 0]).2.getD 0 (some 0) = none :=
  C7_n_eq_one_nan_bounds (fun _ _ => none) (fun _ _ _ => rfl) [some 1] [some 0] 0
    (by norm_num) (by norm_num)

/-- C8 counterexample: `before + after = 0` is an invalid input shape per the
claim, yet the pipeline computes on it instead of rejecting — no validation
exists anywhere in `get_aligned_stats`. -/
theorem C8_no_fail_fast_counterexample :
    (0 : ℕ) + 0 = 0 ∧
    get_aligned_stats [1] [0] [0] 0 0 ≠ none := by
  refine ⟨rfl, ?_⟩
  rw [get_aligned_stats, alignedSegmentsE_of_ne_nil _ _ _ _ _ (by simp)]
  simp

/-- C8 amended: the pipeline performs no input-shape validation: with
`before + after = 0` or an empty reference-point list it computes normally
(returning empty windows/curves), and the only aborting input is a non-empty
reference list against an empty time axis, which fails inside extraction
(numpy `argmin` raising on an empty array), not as an up-front check. -/
theorem C8_no_fail_fast_amended (columnData timeMin points : List ℚ)
    (nBefore nAfter : ℕ) :
    (timeMin = [] ∧ points ≠ [] →
      get_aligned_stats columnData timeMin points nBefore nAfter = none) ∧
    (timeMin ≠ [] →
      (get_aligned_stats columnData timeMin points nBefore nAfter).isSome = true) ∧
    (points = [] →
      (get_aligned_stats columnData timeMin points nBefore nAfter).isSome = true) := by
  refine ⟨?_, ?_, ?_⟩
  · rintro ⟨hT, hP⟩
    cases points with
    | nil => exact absurd rfl hP
    | cons x xs =>
      have hseg : alignedSegmentsE columnData timeMin (x :: xs) nBefore nAfter
          = none := by
        have hfx : (argminAbsE timeMin x).map
            (fun idx => extractWindow columnData idx nBefore nAfter) = none := by
          rw [argminAbsE, if_pos hT]
          rfl
        show mapOpt _ (x :: xs) = none
        rw [mapOpt, hfx]
      rw [get_aligned_stats, hseg]
      rfl
  · intro hT
    rw [get_aligned_stats, alignedSegmentsE_of_ne_nil _ _ _ _ _ hT]
    rfl
  · intro hP
    subst hP
    rfl

/-- Witness for the amended C8: an empty time axis with one reference point
aborts, while `before = after = 0` (claimed invalid) computes a result. -/
theorem C8_no_fail_fast_amended_witness :
    get_aligned_stats [] [] [0] 0 0 = none ∧
    (get_aligned_stats [1] [0] [0] 0 0).isSome = true :=
  ⟨(C8_no_fail_fast_amended [] [] [0] 0 0).1 ⟨rfl, by simp⟩,
   (C8_no_fail_fast_amended [1] [0] [0] 0 0).2.1 (by simp)⟩

/-- C9 counterexample: with one reference point the program's critical value is
NaN (scipy `t.ppf` at `df = 0`, modelled by a `tppf` that reports NaN), and a
position whose SEM is `0` — finite and non-negative — still gets a NaN lower
bound: `lower ≤ mean` fails under IEEE NaN comparison. -/
theorem C9_ci_bounds_counterexample :
    ([some (0 : ℚ)] : List (Option ℚ)).getD 0 none = some 0 ∧ (0 : ℚ) ≤ 0 ∧
    optLe ((ci (t_value (fun _ _ => none) 1) [some (0 : ℚ)] [some 0]).1.getD 0 none)
        (([some (0 : ℚ)] : List (Option ℚ)).getD 0 none) = false := by
  refine ⟨rfl, le_refl 0, ?_⟩
  have ht : t_value (fun _ _ => none) 1 = none := by
    rw [t_value, if_pos (by norm_num)]
  rw [ht]
  rfl

/-- C9 amended: `ci` returns elementwise `mean - t*sem` and `mean + t*sem`, and
wherever the SEM is non-negative and finite AND the critical value `t` and the
mean are also finite with `t ≥ 0`, the bounds satisfy `lower ≤ mean ≤ upper`. -/
theorem C9_ci_bounds_amended (t : ℚ) (mean sem : List (Option ℚ)) (p : ℕ)
    (m s : ℚ) (ht : 0 ≤ t)
    (hm : mean.getD p none = some m) (hs : sem.getD p none = some s)
    (hsnn : 0 ≤ s) (hp1 : p < mean.length) (hp2 : p < sem.length) :
    (ci (some t) mean sem).1.getD p none = some (m - t * s) ∧
    (ci (some t) mean sem).2.getD p none = some (m + t * s) ∧
    optLe ((ci (some t) mean sem).1.getD p none) (mean.getD p none) = true ∧
    optLe (mean.getD p none) ((ci (some t) mean sem).2.getD p none) = true := by
  have hm' : mean[p] = some m := by rwa [List.getD_eq_getElem _ _ hp1] at hm
  have hs' : sem[p] = some s := by rwa [List.getD_eq_getElem _ _ hp2] at hs
  have hlow : (ci (some t) mean sem).1.getD p none = some (m - t * s) := by
    have hl : p < (List.zipWith
        (fun m s => nanSub m (nanMul (some t) s)) mean sem).length := by
      rw [List.length_zipWith]; omega
    show (List.zipWith (fun m s => nanSub m (nanMul (some t) s))
        mean sem).getD p none = _
    rw [List.getD_eq_getElem _ _ hl, List.getElem_zipWith, hm', hs']
    rfl
  have hup : (ci (some t) mean sem).2.getD p none = some (m + t * s) := by
    have hl : p < (List.zipWith
        (fun m s => nanAdd m (nanMul (some t) s)) mean sem).length := by
      rw [List.length_zipWith]; omega
    show (List.zipWith (fun m s => nanAdd m (nanMul (some t) s))
        mean sem).getD p none = _
    rw [List.getD_eq_getElem _ _ hl, List.getElem_zipWith, hm', hs']
    rfl
  have hts : 0 ≤ t * s := mul_nonneg ht hsnn
  refine ⟨hlow, hup, ?_, ?_⟩
  · rw [hlow, hm]
    simp only [optLe, decide_eq_true_eq]
    linarith
  · rw [hup, hm]
    simp only [optLe, decide_eq_true_eq]
    linarith

/-- Witness for the amended C9: `t = 1`, mean `[2]`, SEM `[1]`: bounds are `1`
and `3`, bracketing the mean. -/
theorem C9_ci_bounds_amended_witness :
    (0 : ℚ) ≤ 1 ∧
    (ci (some (1 : ℚ)) [some 2] [some 1]).1.getD 0 none = some (2 - 1 * 1) ∧
    (ci (some (1 : ℚ)) [some 2] [some 1]).2.getD 0 none = some (2 + 1 * 1) ∧
    optLe ((ci (some (1 : ℚ)) [some 2] [some 1]).1.getD 0 none)
        (([some (2 : ℚ)] : List (Option ℚ)).getD 0 none) = true ∧
    optLe (([some (2 : ℚ)] : List (Option ℚ)).getD 0 none)
        ((ci (some (1 : ℚ)) [some 2] [some 1]).2.getD 0 none) = true := by
  have h := C9_ci_bounds_amended 1 [some 2] [some 1] 0 2 1 (by norm_num) rfl rfl
    (by norm_num) (by norm_num) (by norm_num)
  exact ⟨by norm_num, h.1, h.2.1, h.2.2.1, h.2.2.2⟩

end NucleationApp
